import Mathlib

/-! # `examples/massive_pvc/main.go`

A shallow embedding of the example program that creates a range of
PersistentVolumeClaims, lists them, creates one pod mounting all of them,
and deletes everything again.

* Go `int` is a 64-bit two's-complement integer: values are `Int`s in
  `[minInt, maxInt]` and `i++` is `inc`, which wraps.
* The cluster API is an oracle `Env.api`: given the exchanges made so far and
  the next call it answers `none` (a nil error) or `some err`.
* Every API call is appended, together with its answer, to `World.calls`;
  every argument handed to `strconv.Itoa` is appended to `World.itoaArgs`.
* `panic(err)` is the outcome `Outcome.panicked err`.
* The three `for i := start; i <= end; i++` loops need not terminate, so
  they take a bound `fuel` on the number of loop-condition evaluations;
  running out gives `Outcome.outOfFuel`.
* Console output (`fmt.Printf`, `fmt.Println`) has no influence on control
  flow or on the API calls and is not modelled; the objects returned by a
  successful `Create` or `List` are only printed, so an answer is reduced to
  its error part.  A successful call is taken to return a non-nil object, as
  the typed clients do.
* `prompt` reads standard input; what the scanner reports is the oracle
  `Env.stdin`.  A read that never completes is outside the model.

The definitions come first: the program, then the notions the statements and
proofs use.  The theorems follow, and the last section settles the claims
about the program one by one.
-/

namespace MassivePvc

/-! ## Go `int` and `strconv.Itoa` -/

/-- Smallest value of a 64-bit Go `int`. -/
def minInt : Int := -9223372036854775808

/-- Largest value of a 64-bit Go `int`. -/
def maxInt : Int := 9223372036854775807

/-- Values representable as a 64-bit Go `int`. -/
def IsGoInt (x : Int) : Prop := minInt ≤ x ∧ x ≤ maxInt

instance (x : Int) : Decidable (IsGoInt x) := by
  unfold IsGoInt; exact inferInstance

/-- Two's-complement reduction of an integer to 64 bits. -/
def wrapInt (x : Int) : Int :=
  (x + 9223372036854775808) % 18446744073709551616 - 9223372036854775808

/-- Go's `i++` on an `int`: overflow wraps around. -/
def inc (i : Int) : Int := wrapInt (i + 1)

/-- Result of `strconv.Itoa`: the decimal rendering, with a leading minus
sign for negative values. -/
def Itoa (i : Int) : String :=
  if i < 0 then "-" ++ Nat.repr i.natAbs else Nat.repr i.toNat

/-! ## API objects

Only the fields the program sets are kept; the types themselves are declared
in `k8s.io/api` and `k8s.io/apimachinery`. -/

/-- Values of `apiv1.PersistentVolumeAccessMode`. -/
inductive PersistentVolumeAccessMode
  | ReadWriteOnce
  | ReadOnlyMany
  | ReadWriteMany
  | ReadWriteOncePod
  deriving DecidableEq

/-- Values of `apiv1.PersistentVolumeMode`. -/
inductive PersistentVolumeMode
  | PersistentVolumeBlock
  | PersistentVolumeFilesystem
  deriving DecidableEq

/-- Values of `apiv1.PullPolicy`. -/
inductive PullPolicy
  | PullAlways
  | PullNever
  | PullIfNotPresent
  deriving DecidableEq

/-- Values of `metav1.DeletionPropagation`. -/
inductive DeletionPropagation
  | DeletePropagationOrphan
  | DeletePropagationBackground
  | DeletePropagationForeground
  deriving DecidableEq

/-- The part of `metav1.ObjectMeta` the program fills in. -/
structure ObjectMeta where
  Name : String
  deriving DecidableEq

/-- The part of `apiv1.ResourceRequirements` the program fills in: resource
name and the quantity string given to `resource.MustParse`. -/
structure ResourceRequirements where
  Requests : List (String × String)
  deriving DecidableEq

/-- The part of `apiv1.PersistentVolumeClaimSpec` the program fills in. -/
structure PersistentVolumeClaimSpec where
  AccessModes : List PersistentVolumeAccessMode
  Resources : ResourceRequirements
  VolumeMode : Option PersistentVolumeMode
  deriving DecidableEq

/-- The part of `apiv1.PersistentVolumeClaim` the program fills in. -/
structure PersistentVolumeClaim where
  ObjectMeta : ObjectMeta
  Spec : PersistentVolumeClaimSpec
  deriving DecidableEq

/-- The part of `apiv1.SecurityContext` the program fills in. -/
structure SecurityContext where
  Privileged : Option Bool
  deriving DecidableEq

/-- An `apiv1.VolumeMount`. -/
structure VolumeMount where
  Name : String
  MountPath : String
  deriving DecidableEq

/-- The part of `apiv1.Container` the program fills in. -/
structure Container where
  Name : String
  Image : String
  ImagePullPolicy : PullPolicy
  Command : List String
  SecurityContext : Option SecurityContext
  VolumeMounts : List VolumeMount
  deriving DecidableEq

/-- An `apiv1.PersistentVolumeClaimVolumeSource`. -/
structure PersistentVolumeClaimVolumeSource where
  ClaimName : String
  deriving DecidableEq

/-- The part of `apiv1.VolumeSource` the program fills in. -/
structure VolumeSource where
  PersistentVolumeClaim : Option PersistentVolumeClaimVolumeSource
  deriving DecidableEq

/-- An `apiv1.Volume`. -/
structure Volume where
  Name : String
  VolumeSource : VolumeSource
  deriving DecidableEq

/-- The part of `apiv1.PodSpec` the program fills in. -/
structure PodSpec where
  Volumes : List Volume
  Containers : List Container
  deriving DecidableEq

/-- The part of `apiv1.Pod` the program fills in. -/
structure Pod where
  ObjectMeta : ObjectMeta
  Spec : PodSpec
  deriving DecidableEq

/-- The part of `metav1.DeleteOptions` the program fills in; `none` is a nil
pointer. -/
structure DeleteOptions where
  PropagationPolicy : Option DeletionPropagation
  deriving DecidableEq

/-! ## API calls, the world and outcomes -/

/-- The API calls the program makes.  `Create` and `List` are always given
the zero value of their options, which is left out. -/
inductive Call
  | pvcCreate (pvc : PersistentVolumeClaim)
  | pvcDelete (name : String) (opts : DeleteOptions)
  | pvcList
  | podCreate (pod : Pod)
  | podDelete (name : String) (opts : DeleteOptions)
  deriving DecidableEq

/-- One API call together with the error it returned (`none` is nil). -/
structure Exchange where
  call : Call
  err : Option String
  deriving DecidableEq

/-- What has been observed of the run so far. -/
structure World where
  /-- API calls made, oldest first. -/
  calls : List Exchange
  /-- Arguments passed to `strconv.Itoa`, oldest first. -/
  itoaArgs : List Int
  /-- Number of times `prompt` has read from standard input. -/
  prompts : Nat
  deriving DecidableEq

/-- The world before the program has done anything. -/
def World.init : World := ⟨[], [], 0⟩

/-- The surroundings of the program: the cluster API and standard input. -/
structure Env where
  /-- Error returned by the API for a call, given the earlier exchanges. -/
  api : List Exchange → Call → Option String
  /-- Value of `scanner.Err()` in the `k`-th call of `prompt`. -/
  stdin : Nat → Option String

/-- How a function of the program ends. -/
inductive Outcome
  | returned
  | panicked (err : String)
  | outOfFuel
  deriving DecidableEq

/-- Record a call of `strconv.Itoa`. -/
def World.noteItoa (w : World) (i : Int) : World :=
  ⟨w.calls, w.itoaArgs ++ [i], w.prompts⟩

/-- Make an API call: ask the oracle and record the exchange. -/
def doCall (env : Env) (c : Call) (w : World) : World × Option String :=
  (⟨w.calls ++ [⟨c, env.api w.calls c⟩], w.itoaArgs, w.prompts⟩, env.api w.calls c)

/-- The common shape `if err != nil { panic(err) }` after an API call. -/
def callOrPanic (env : Env) (c : Call) (w : World) : World × Outcome :=
  match doCall env c w with
  | (w1, some err) => (w1, .panicked err)
  | (w1, none) => (w1, .returned)

/-- Sequencing of statements: the rest runs only if the first part returned. -/
def andThen (r : World × Outcome) (k : World → World × Outcome) : World × Outcome :=
  match r.2 with
  | .returned => k r.1
  | _ => r

/-! ## The program -/

/-- The claim literal of `createPVCs` (lines 50-65) for a given name.  The
quantity `resource.MustParse("1Gi")` is kept as its text; parsing this
literal does not panic. -/
def newPVC (name : String) : PersistentVolumeClaim :=
  { ObjectMeta := { Name := name }
    Spec :=
      { AccessModes := [PersistentVolumeAccessMode.ReadWriteOnce]
        Resources := { Requests := [("storage", "1Gi")] }
        VolumeMode := some PersistentVolumeMode.PersistentVolumeFilesystem } }

/-- The loop of `createPVCs`, entered with loop counter `i`. -/
def createPVCsLoop (env : Env) (stop : Int) : Nat → Int → World → World × Outcome
  | 0, _, w => (w, .outOfFuel)
  | fuel + 1, i, w =>
    if i ≤ stop then
      match doCall env (.pvcCreate (newPVC ("pvc-" ++ Itoa i))) (w.noteItoa i) with
      | (w1, some err) => (w1, .panicked err)
      | (w1, none) => createPVCsLoop env stop fuel (inc i) w1
    else (w, .returned)

/-- `createPVCs(pvcClient, start, end)`. -/
def createPVCs (env : Env) (fuel : Nat) (start stop : Int) (w : World) : World × Outcome :=
  createPVCsLoop env stop fuel start w

/-- The loop of `deletePVCs`, entered with loop counter `i`. -/
def deletePVCsLoop (env : Env) (stop : Int) : Nat → Int → World → World × Outcome
  | 0, _, w => (w, .outOfFuel)
  | fuel + 1, i, w =>
    if i ≤ stop then
      match doCall env
          (.pvcDelete ("pvc-" ++ Itoa i)
            { PropagationPolicy := some DeletionPropagation.DeletePropagationForeground })
          (w.noteItoa i) with
      | (w1, some err) => (w1, .panicked err)
      | (w1, none) => deletePVCsLoop env stop fuel (inc i) w1
    else (w, .returned)

/-- `deletePVCs(pvcClient, start, end)`. -/
def deletePVCs (env : Env) (fuel : Nat) (start stop : Int) (w : World) : World × Outcome :=
  deletePVCsLoop env stop fuel start w

/-- The pod literal of `createPod` (lines 89-109): no volumes yet. -/
def basePod : Pod :=
  { ObjectMeta := { Name := "hold-massive-pvcs" }
    Spec :=
      { Volumes := []
        Containers :=
          [{ Name := "hold-massive-pvcs"
             Image := "ubuntu:latest"
             ImagePullPolicy := PullPolicy.PullIfNotPresent
             Command := ["/bin/sleep", "3600"]
             SecurityContext := some { Privileged := some true }
             VolumeMounts := [] }] } }

/-- The volume literal of `createPod` (lines 112-119) for loop counter `i`. -/
def newVolume (i : Int) : Volume :=
  { Name := "pvc-" ++ Itoa i
    VolumeSource := { PersistentVolumeClaim := some { ClaimName := "pvc-" ++ Itoa i } } }

/-- The volume-mount literal of `createPod` (lines 122-125) for loop counter
`i`. -/
def newVolumeMount (i : Int) : VolumeMount :=
  { Name := "pvc-" ++ Itoa i, MountPath := "/" ++ "pvc-" ++ Itoa i }

/-- One pass through the body of the loop of `createPod` (lines 112-126):
two calls of `strconv.Itoa` and one volume appended, two more calls and one
volume mount appended to `Containers[0]`.  Indexing `Containers[0]` of an
empty slice panics, which is `none`. -/
def createPodBody (i : Int) (pod : Pod) (w : World) : Option (Pod × World) :=
  let w1 := (w.noteItoa i).noteItoa i
  let vols := pod.Spec.Volumes ++ [newVolume i]
  let w2 := (w1.noteItoa i).noteItoa i
  match pod.Spec.Containers with
  | [] => none
  | c :: cs =>
    some ({ ObjectMeta := pod.ObjectMeta
            Spec :=
              { Volumes := vols
                Containers :=
                  { c with VolumeMounts := c.VolumeMounts ++ [newVolumeMount i] } :: cs } },
          w2)

/-- The loop of `createPod`, entered with loop counter `i`. -/
def createPodLoop (stop : Int) : Nat → Int → Pod → World → Pod × World × Outcome
  | 0, _, pod, w => (pod, w, .outOfFuel)
  | fuel + 1, i, pod, w =>
    if i ≤ stop then
      match createPodBody i pod w with
      | none => (pod, w, .panicked "index out of range [0] with length 0")
      | some (pod1, w1) => createPodLoop stop fuel (inc i) pod1 w1
    else (pod, w, .returned)

/-- `createPod(podClient, start, end)`. -/
def createPod (env : Env) (fuel : Nat) (start stop : Int) (w : World) : World × Outcome :=
  match createPodLoop stop fuel start basePod w with
  | (pod, w1, .returned) => callOrPanic env (.podCreate pod) w1
  | (_, w1, o) => (w1, o)

/-- `deletePod(podClient)`. -/
def deletePod (env : Env) (w : World) : World × Outcome :=
  callOrPanic env
    (.podDelete "hold-massive-pvcs"
      { PropagationPolicy := some DeletionPropagation.DeletePropagationForeground })
    w

/-- `prompt()`: waits for a line on standard input and panics if the scanner
reports an error. -/
def prompt (env : Env) (w : World) : World × Outcome :=
  match env.stdin w.prompts with
  | some err => (⟨w.calls, w.itoaArgs, w.prompts + 1⟩, .panicked err)
  | none => (⟨w.calls, w.itoaArgs, w.prompts + 1⟩, .returned)

/-- The five steps of `main` (lines 171-201), after the clients have been
built, with `start` and `stop` the values of the two flags. -/
def mainSequence (env : Env) (fuel : Nat) (start stop : Int) (w : World) : World × Outcome :=
  andThen (createPVCs env fuel start stop w) fun w =>
  andThen (prompt env w) fun w =>
  andThen (callOrPanic env .pvcList w) fun w =>
  andThen (prompt env w) fun w =>
  andThen (createPod env fuel start stop w) fun w =>
  andThen (prompt env w) fun w =>
  andThen (deletePod env w) fun w =>
  andThen (prompt env w) fun w =>
  deletePVCs env fuel start stop w

/-- An environment in which every API call succeeds and every prompt is
answered. -/
def okEnv : Env := ⟨fun _ _ => none, fun _ => none⟩

/-- Every API call succeeds. -/
def ApiOk (env : Env) : Prop := ∀ h c, env.api h c = none

/-- No read of standard input fails. -/
def StdinOk (env : Env) : Prop := ∀ k, env.stdin k = none

/-- The calls of a list of exchanges. -/
def callsOf (l : List Exchange) : List Call := l.map (·.call)

/-! ## Definitions used in the statements and in the proofs -/

/-- The common shape of the loops of `createPVCs` and `deletePVCs`. -/
def callLoop (env : Env) (mk : Int → Call) (stop : Int) : Nat → Int → World → World × Outcome
  | 0, _, w => (w, .outOfFuel)
  | fuel + 1, i, w =>
    if i ≤ stop then
      match doCall env (mk i) (w.noteItoa i) with
      | (w1, some err) => (w1, .panicked err)
      | (w1, none) => callLoop env mk stop fuel (inc i) w1
    else (w, .returned)

/-- The call `createPVCs` makes for loop counter `i`. -/
def createCall (i : Int) : Call := .pvcCreate (newPVC ("pvc-" ++ Itoa i))

/-- The call `deletePVCs` makes for loop counter `i`. -/
def deleteCall (i : Int) : Call :=
  .pvcDelete ("pvc-" ++ Itoa i)
    { PropagationPolicy := some DeletionPropagation.DeletePropagationForeground }

/-- No exchange of the list returned an error. -/
def AllNil (l : List Exchange) : Prop := ∀ x ∈ l, x.err = none

/-- Either no call has failed, or exactly the last one has and the run has
panicked with its error. -/
def ErrLast (r : World × Outcome) : Prop :=
  AllNil r.1.calls ∨
    ∃ l c e, r.1.calls = l ++ [⟨c, some e⟩] ∧ AllNil l ∧ r.2 = .panicked e

/-- A pod with volumes appended and volume mounts appended to its first
container `c`; `cs` are its other containers. -/
def podWith (pod : Pod) (c : Container) (cs : List Container) (vols : List Volume)
    (mnts : List VolumeMount) : Pod :=
  { ObjectMeta := pod.ObjectMeta
    Spec :=
      { Volumes := pod.Spec.Volumes ++ vols
        Containers := { c with VolumeMounts := c.VolumeMounts ++ mnts } :: cs } }

/-- The step leading from `w` to `r` has only appended calls, each of which
satisfies `P`. -/
def Appends (P : Call → Prop) (w : World) (r : World × Outcome) : Prop :=
  ∃ l, r.1.calls = w.calls ++ l ∧ ∀ x ∈ l, P x.call

/-- The steps of `mainSequence` that follow `createPVCs`. -/
def afterCreate (env : Env) (fuel : Nat) (start stop : Int) (w : World) : World × Outcome :=
  andThen (prompt env w) fun w =>
  andThen (callOrPanic env .pvcList w) fun w =>
  andThen (prompt env w) fun w =>
  andThen (createPod env fuel start stop w) fun w =>
  andThen (prompt env w) fun w =>
  andThen (deletePod env w) fun w =>
  andThen (prompt env w) fun w =>
  deletePVCs env fuel start stop w

/-- Number of integers in `[start, stop]`. -/
def rangeLen (start stop : Int) : Nat := (stop + 1 - start).toNat

/-- The exchanges of `n` successful calls `mk start`, `mk (start + 1)`, ... -/
def okCalls (mk : Int → Call) (start : Int) (n : Nat) : List Exchange :=
  (List.range n).map (fun (k : Nat) => (⟨mk (start + k), none⟩ : Exchange))

/-- The `n` integers from `start` upwards. -/
def indices (start : Int) (n : Nat) : List Int :=
  (List.range n).map (fun (k : Nat) => start + (k : Int))

/-- The pod literal of `createPod` with the volumes and volume mounts of the
`n` loop counters from `start` upwards. -/
def expectedPod (start : Int) (n : Nat) : Pod :=
  { ObjectMeta := { Name := "hold-massive-pvcs" }
    Spec :=
      { Volumes := (List.range n).map (fun (k : Nat) => newVolume (start + k))
        Containers :=
          [{ Name := "hold-massive-pvcs"
             Image := "ubuntu:latest"
             ImagePullPolicy := PullPolicy.PullIfNotPresent
             Command := ["/bin/sleep", "3600"]
             SecurityContext := some { Privileged := some true }
             VolumeMounts := (List.range n).map (fun (k : Nat) => newVolumeMount (start + k)) }] } }

/-- The call `deletePod` makes. -/
def deletePodCall : Call :=
  .podDelete "hold-massive-pvcs"
    { PropagationPolicy := some DeletionPropagation.DeletePropagationForeground }

/-- Names of the claims created by the `Create` calls of a trace. -/
def createdNames (l : List Exchange) : List String :=
  l.filterMap fun x =>
    match x.call with
    | .pvcCreate pvc => some pvc.ObjectMeta.Name
    | _ => none

/-- An environment whose API never fails but whose standard input cannot be
read. -/
def brokenStdin : Env := ⟨fun _ _ => none, fun _ => some "read error"⟩

/-- An environment in which creating the claim of index 1 fails and every
other call succeeds. -/
def failCreate1 : Env :=
  ⟨fun _ c => if c = createCall 1 then some "create failed" else none, fun _ => none⟩

/-- Value of a decimal digit character. -/
def digitVal (c : Char) : Nat := c.toNat - 48

/-- Value of a list of decimal digits, continuing from `acc`. -/
def parseDigits (acc : Nat) (l : List Char) : Nat :=
  l.foldl (fun a c => 10 * a + digitVal c) acc

/-- The name given to the claim of index `i`. -/
def pvcName (i : Int) : String := "pvc-" ++ Itoa i

/-- Names of the claims deleted by the `Delete` calls of a trace. -/
def deletedNames (l : List Exchange) : List String :=
  l.filterMap fun x =>
    match x.call with
    | .pvcDelete name _ => some name
    | _ => none

/-- The store model of claim C8: the set of claim names in the cluster, where
a claim `Create` adds the name of the claim, a claim `Delete` removes the
name, and the other calls leave the claims alone. -/
def storeStep (store : List String) : Call → List String
  | .pvcCreate pvc => if pvc.ObjectMeta.Name ∈ store then store else store ++ [pvc.ObjectMeta.Name]
  | .pvcDelete name _ => store.filter (fun s => s ≠ name)
  | _ => store

/-- The store after a sequence of calls. -/
def storeAfter (store : List String) (calls : List Call) : List String :=
  calls.foldl storeStep store

/-- The values the loop counter of `for i := start; i <= end; i++` takes in
the passes that enter the body, for a loop entered with counter `i` and given
`fuel` evaluations of its condition. -/
def loopIndices (stop : Int) : Nat → Int → List Int
  | 0, _ => []
  | fuel + 1, i => if i ≤ stop then i :: loopIndices stop fuel (inc i) else []

/-! ## Arithmetic of the loop counter -/

theorem inc_of_lt_maxInt (i : Int) (h1 : minInt ≤ i) (h2 : i < maxInt) : inc i = i + 1 := by
  unfold inc wrapInt
  unfold minInt at h1
  unfold maxInt at h2
  omega

theorem inc_maxInt : inc maxInt = minInt := by decide

theorem isGoInt_inc (i : Int) : IsGoInt (inc i) := by
  unfold IsGoInt inc wrapInt minInt maxInt
  omega

/-! ## A loop of API calls

`createPVCsLoop` and `deletePVCsLoop` differ only in the call they make, so
their properties are proved once, for `callLoop`. -/

theorem createPVCsLoop_eq (env : Env) (stop : Int) (fuel : Nat) (i : Int) (w : World) :
    createPVCsLoop env stop fuel i w = callLoop env createCall stop fuel i w := by
  induction fuel generalizing i w with
  | zero => rfl
  | succ n ih =>
    simp only [createPVCsLoop, callLoop, createCall]
    split
    · split <;> simp_all [createCall]
    · rfl

theorem deletePVCsLoop_eq (env : Env) (stop : Int) (fuel : Nat) (i : Int) (w : World) :
    deletePVCsLoop env stop fuel i w = callLoop env deleteCall stop fuel i w := by
  induction fuel generalizing i w with
  | zero => rfl
  | succ n ih =>
    simp only [deletePVCsLoop, callLoop, deleteCall]
    split
    · split <;> simp_all [deleteCall]
    · rfl

/-- With an API that never fails and a bound below `maxInt`, the loop makes
one call for each of the `n` values from `i` up to `stop` and returns. -/
theorem callLoop_ok (env : Env) (hok : ApiOk env) (mk : Int → Call) (stop : Int)
    (hstop : stop < maxInt) (n : Nat) :
    ∀ (fuel : Nat) (i : Int) (w : World), minInt ≤ i → i + n = stop + 1 → n < fuel →
      callLoop env mk stop fuel i w =
        (⟨w.calls ++ (List.range n).map (fun (k : Nat) => (⟨mk (i + k), none⟩ : Exchange)),
          w.itoaArgs ++ (List.range n).map (fun (k : Nat) => i + (k : Int)), w.prompts⟩, .returned) := by
  induction n with
  | zero =>
    intro fuel i w _ hi hf
    obtain ⟨f, rfl⟩ : ∃ f, fuel = f + 1 := ⟨fuel - 1, by omega⟩
    have : ¬ i ≤ stop := by omega
    simp [callLoop, this]
  | succ n ih =>
    intro fuel i w hmin hi hf
    obtain ⟨f, rfl⟩ : ∃ f, fuel = f + 1 := ⟨fuel - 1, by omega⟩
    have hle : i ≤ stop := by omega
    have hinc : inc i = i + 1 := inc_of_lt_maxInt i hmin (by omega)
    have hapi := hok w.calls (mk i)
    simp only [callLoop, hle, if_true, doCall, World.noteItoa, hapi, hinc]
    rw [ih f (i + 1) _ (by omega) (by push_cast at hi ⊢; omega) (by omega)]
    have e1 : (List.range n).map (fun (k : Nat) => (⟨mk (i + 1 + k), none⟩ : Exchange))
        = (List.range n).map ((fun (k : Nat) => (⟨mk (i + k), none⟩ : Exchange)) ∘ Nat.succ) := by
      apply List.map_congr_left
      intro k _
      simp only [Function.comp, Nat.cast_succ]
      congr 2
      omega
    have e2 : (List.range n).map (fun (k : Nat) => i + 1 + (k : Int))
        = (List.range n).map ((fun (k : Nat) => i + (k : Int)) ∘ Nat.succ) := by
      apply List.map_congr_left
      intro k _
      simp only [Function.comp, Nat.cast_succ]
      omega
    rw [e1, e2]
    simp [List.range_succ_eq_map, List.map_map]

/-- With an empty range the loop does nothing and returns. -/
theorem callLoop_empty (env : Env) (mk : Int → Call) (stop : Int) (fuel : Nat) (i : Int)
    (w : World) (h : stop < i) : callLoop env mk stop (fuel + 1) i w = (w, .returned) := by
  have : ¬ i ≤ stop := by omega
  simp [callLoop, this]

/-- With an API that never fails and the bound `maxInt`, the loop uses up any
amount of fuel: every pass makes one more call. -/
theorem callLoop_maxInt (env : Env) (hok : ApiOk env) (mk : Int → Call) (fuel : Nat) :
    ∀ (i : Int) (w : World), IsGoInt i →
      (callLoop env mk maxInt fuel i w).2 = .outOfFuel ∧
      (callLoop env mk maxInt fuel i w).1.calls.length = w.calls.length + fuel := by
  induction fuel with
  | zero => intro i w _; simp [callLoop]
  | succ n ih =>
    intro i w hi
    have hle : i ≤ maxInt := hi.2
    have hapi := hok w.calls (mk i)
    simp only [callLoop, hle, if_true, doCall, World.noteItoa, hapi]
    obtain ⟨h1, h2⟩ := ih (inc i) ⟨w.calls ++ [⟨mk i, none⟩], w.itoaArgs ++ [i], w.prompts⟩
      (isGoInt_inc i)
    refine ⟨h1, ?_⟩
    rw [h2]
    simp
    omega

/-! ## Errors end the run -/

theorem allNil_append_singleton (l : List Exchange) (c : Call) (h : AllNil l) :
    AllNil (l ++ [⟨c, none⟩]) := by
  intro x hx
  rcases List.mem_append.mp hx with h1 | h1
  · exact h x h1
  · simp only [List.mem_singleton] at h1
    rw [h1]

theorem callLoop_errLast (env : Env) (mk : Int → Call) (stop : Int) (fuel : Nat) :
    ∀ (i : Int) (w : World), AllNil w.calls → ErrLast (callLoop env mk stop fuel i w) := by
  induction fuel with
  | zero => intro i w h; exact Or.inl h
  | succ n ih =>
    intro i w h
    simp only [callLoop, doCall, World.noteItoa]
    split
    · cases hr : env.api w.calls (mk i) with
      | none =>
        simp only []
        apply ih
        exact allNil_append_singleton _ _ h
      | some e =>
        simp only []
        exact Or.inr ⟨w.calls, mk i, e, rfl, h, rfl⟩
    · exact Or.inl h

theorem callOrPanic_errLast (env : Env) (c : Call) (w : World) (h : AllNil w.calls) :
    ErrLast (callOrPanic env c w) := by
  simp only [callOrPanic, doCall]
  cases hr : env.api w.calls c with
  | none => exact Or.inl (allNil_append_singleton _ _ h)
  | some e => exact Or.inr ⟨w.calls, c, e, rfl, h, rfl⟩

theorem prompt_calls (env : Env) (w : World) : (prompt env w).1.calls = w.calls := by
  unfold prompt
  split <;> rfl

theorem prompt_errLast (env : Env) (w : World) (h : AllNil w.calls) :
    ErrLast (prompt env w) := by
  left
  rw [prompt_calls]
  exact h

theorem createPodBody_calls (i : Int) (pod pod1 : Pod) (w w1 : World)
    (h : createPodBody i pod w = some (pod1, w1)) : w1.calls = w.calls := by
  unfold createPodBody at h
  split at h
  · cases h
  · simp only [Option.some.injEq, Prod.mk.injEq] at h
    rw [← h.2]
    rfl

theorem createPodLoop_calls (stop : Int) (fuel : Nat) :
    ∀ (i : Int) (pod : Pod) (w : World),
      (createPodLoop stop fuel i pod w).2.1.calls = w.calls := by
  induction fuel with
  | zero => intro i pod w; rfl
  | succ n ih =>
    intro i pod w
    simp only [createPodLoop]
    split
    · cases hb : createPodBody i pod w with
      | none => rfl
      | some pw =>
        obtain ⟨pod1, w1⟩ := pw
        simp only []
        rw [ih, createPodBody_calls i pod pod1 w w1 hb]
    · rfl

theorem createPod_errLast (env : Env) (fuel : Nat) (start stop : Int) (w : World)
    (h : AllNil w.calls) : ErrLast (createPod env fuel start stop w) := by
  have hc := createPodLoop_calls stop fuel start basePod w
  unfold createPod
  rcases hl : createPodLoop stop fuel start basePod w with ⟨pod, w1, o⟩
  rw [hl] at hc
  simp only at hc
  cases o with
  | returned =>
    apply callOrPanic_errLast
    rw [hc]; exact h
  | panicked e => left; simp only []; rw [hc]; exact h
  | outOfFuel => left; simp only []; rw [hc]; exact h

theorem andThen_errLast (r : World × Outcome) (k : World → World × Outcome)
    (hr : ErrLast r) (hk : ∀ w, AllNil w.calls → ErrLast (k w)) : ErrLast (andThen r k) := by
  unfold andThen
  split
  · rename_i heq
    apply hk
    rcases hr with h | ⟨l, c, e, _, _, h3⟩
    · exact h
    · rw [heq] at h3; cases h3
  · exact hr

theorem mainSequence_errLast (env : Env) (fuel : Nat) (start stop : Int) (w : World)
    (h : AllNil w.calls) : ErrLast (mainSequence env fuel start stop w) := by
  unfold mainSequence
  apply andThen_errLast
  · rw [createPVCs, createPVCsLoop_eq]; exact callLoop_errLast _ _ _ _ _ _ h
  intro w h
  apply andThen_errLast _ _ (prompt_errLast env w h)
  intro w h
  apply andThen_errLast _ _ (callOrPanic_errLast env _ w h)
  intro w h
  apply andThen_errLast _ _ (prompt_errLast env w h)
  intro w h
  apply andThen_errLast _ _ (createPod_errLast env fuel start stop w h)
  intro w h
  apply andThen_errLast _ _ (prompt_errLast env w h)
  intro w h
  apply andThen_errLast _ _ (callOrPanic_errLast env _ w h)
  intro w h
  apply andThen_errLast _ _ (prompt_errLast env w h)
  intro w h
  rw [deletePVCs, deletePVCsLoop_eq]; exact callLoop_errLast _ _ _ _ _ _ h

/-- In a run where only the last call may have failed, a call that returned
an error is the last one and the run has panicked with that error. -/
theorem errLast_last (r : World × Outcome) (h : ErrLast r) (k : Nat) (x : Exchange) (e : String)
    (hk : r.1.calls[k]? = some x) (he : x.err = some e) :
    k + 1 = r.1.calls.length ∧ r.2 = .panicked e := by
  rcases h with h | ⟨l, c, e1, h1, h2, h3⟩
  · have hx : x ∈ r.1.calls := List.getElem?_mem hk
    have := h x hx
    rw [this] at he; cases he
  · rw [h1] at hk ⊢
    by_cases hlt : k < l.length
    · rw [List.getElem?_append_left hlt] at hk
      have := h2 x (List.getElem?_mem hk)
      rw [this] at he; cases he
    · have hlen : k < (l ++ [(⟨c, some e1⟩ : Exchange)]).length := by
        by_contra hcon
        rw [List.getElem?_eq_none (by omega)] at hk
        cases hk
      simp only [List.length_append, List.length_singleton] at hlen ⊢
      have hkl : k = l.length := by omega
      subst hkl
      simp only [List.getElem?_concat_length, Option.some.injEq] at hk
      subst hk
      simp only [Option.some.injEq] at he
      subst he
      exact ⟨rfl, h3⟩

/-! ## The loop of `createPod` -/

theorem range_succ_map_shift {α : Type} (f : Int → α) (i : Int) (n : Nat) :
    (List.range (n + 1)).map (fun (k : Nat) => f (i + k))
      = f i :: (List.range n).map (fun (k : Nat) => f (i + 1 + k)) := by
  have e : (List.range n).map (fun (k : Nat) => f (i + 1 + k))
      = (List.range n).map ((fun (k : Nat) => f (i + k)) ∘ Nat.succ) := by
    apply List.map_congr_left
    intro k _
    simp only [Function.comp, Nat.cast_succ]
    congr 1
    omega
  rw [e]
  simp [List.range_succ_eq_map, List.map_map]

theorem podWith_nil (pod : Pod) (c : Container) (cs : List Container)
    (h : pod.Spec.Containers = c :: cs) : podWith pod c cs [] [] = pod := by
  obtain ⟨m, ⟨vols, conts⟩⟩ := pod
  simp only at h
  subst h
  simp [podWith]

/-- With a bound below `maxInt`, the loop of `createPod` appends one volume
and one volume mount for each of the `n` values from `i` up to `stop`, calls
`strconv.Itoa` four times on each, and ends. -/
theorem createPodLoop_ok (stop : Int) (hstop : stop < maxInt) (n : Nat) :
    ∀ (fuel : Nat) (i : Int) (pod : Pod) (w : World) (c : Container) (cs : List Container),
      minInt ≤ i → i + n = stop + 1 → n < fuel → pod.Spec.Containers = c :: cs →
      createPodLoop stop fuel i pod w =
        (podWith pod c cs ((List.range n).map (fun (k : Nat) => newVolume (i + k)))
            ((List.range n).map (fun (k : Nat) => newVolumeMount (i + k))),
          ⟨w.calls,
            w.itoaArgs ++ ((List.range n).map (fun (k : Nat) => i + (k : Int))).flatMap
              (fun j => [j, j, j, j]),
            w.prompts⟩,
          .returned) := by
  induction n with
  | zero =>
    intro fuel i pod w c cs _ hi hf hc
    obtain ⟨f, rfl⟩ : ∃ f, fuel = f + 1 := ⟨fuel - 1, by omega⟩
    have : ¬ i ≤ stop := by omega
    simp [createPodLoop, this, podWith_nil pod c cs hc]
  | succ n ih =>
    intro fuel i pod w c cs hmin hi hf hc
    obtain ⟨f, rfl⟩ : ∃ f, fuel = f + 1 := ⟨fuel - 1, by omega⟩
    have hle : i ≤ stop := by omega
    have hinc : inc i = i + 1 := inc_of_lt_maxInt i hmin (by omega)
    simp only [createPodLoop, hle, if_true, createPodBody, hc, World.noteItoa, hinc]
    rw [ih f (i + 1) _ _ { c with VolumeMounts := c.VolumeMounts ++ [newVolumeMount i] } cs
      (by omega) (by push_cast at hi ⊢; omega) (by omega) rfl]
    rw [range_succ_map_shift newVolume, range_succ_map_shift newVolumeMount,
      range_succ_map_shift (fun j => j)]
    simp [podWith]

/-- The loop of `createPod` with the bound `maxInt` uses up any amount of
fuel: every pass appends one more volume and the pod is never submitted. -/
theorem createPodLoop_maxInt (fuel : Nat) :
    ∀ (i : Int) (pod : Pod) (w : World), IsGoInt i → pod.Spec.Containers ≠ [] →
      (createPodLoop maxInt fuel i pod w).2.2 = .outOfFuel ∧
      (createPodLoop maxInt fuel i pod w).1.Spec.Volumes.length
        = pod.Spec.Volumes.length + fuel := by
  induction fuel with
  | zero => intro i pod w _ _; simp [createPodLoop]
  | succ n ih =>
    intro i pod w hi hc
    have hle : i ≤ maxInt := hi.2
    obtain ⟨c, cs, hcs⟩ : ∃ c cs, pod.Spec.Containers = c :: cs := by
      cases h : pod.Spec.Containers with
      | nil => exact absurd h hc
      | cons c cs => exact ⟨c, cs, rfl⟩
    simp only [createPodLoop, hle, if_true, createPodBody, hcs]
    obtain ⟨h1, h2⟩ := ih (inc i)
      { ObjectMeta := pod.ObjectMeta
        Spec :=
          { Volumes := pod.Spec.Volumes ++ [newVolume i]
            Containers := { c with VolumeMounts := c.VolumeMounts ++ [newVolumeMount i] } :: cs } }
      ((((w.noteItoa i).noteItoa i).noteItoa i).noteItoa i) (isGoInt_inc i) (by simp)
    refine ⟨h1, ?_⟩
    rw [h2]
    simp
    omega

/-! ## What a step adds to the trace -/

theorem appends_refl (P : Call → Prop) (w : World) (o : Outcome) : Appends P w (w, o) :=
  ⟨[], by simp, by simp⟩

theorem appends_mono {P Q : Call → Prop} (hPQ : ∀ c, P c → Q c) {w : World}
    {r : World × Outcome} (h : Appends P w r) : Appends Q w r := by
  obtain ⟨l, h1, h2⟩ := h
  exact ⟨l, h1, fun x hx => hPQ _ (h2 x hx)⟩

theorem appends_trans {P : Call → Prop} {w w1 : World} {o : Outcome} {r : World × Outcome}
    (h1 : Appends P w (w1, o)) (h2 : Appends P w1 r) : Appends P w r := by
  obtain ⟨l1, e1, p1⟩ := h1
  obtain ⟨l2, e2, p2⟩ := h2
  refine ⟨l1 ++ l2, ?_, ?_⟩
  · rw [e2]
    simp only at e1
    rw [e1, List.append_assoc]
  · intro x hx
    rcases List.mem_append.mp hx with h | h
    · exact p1 x h
    · exact p2 x h

theorem appends_andThen {P : Call → Prop} {w : World} {r : World × Outcome}
    {k : World → World × Outcome} (hr : Appends P w r) (hk : ∀ w1, Appends P w1 (k w1)) :
    Appends P w (andThen r k) := by
  unfold andThen
  split
  · exact appends_trans (o := r.2) hr (hk r.1)
  · exact hr

theorem doCall_appends (env : Env) (c : Call) (w : World) (o : Outcome) :
    Appends (fun d => d = c) w ((doCall env c w).1, o) :=
  ⟨[⟨c, env.api w.calls c⟩], rfl, by simp⟩

theorem callOrPanic_appends (env : Env) (c : Call) (w : World) :
    Appends (fun d => d = c) w (callOrPanic env c w) := by
  unfold callOrPanic
  split
  · rename_i w1 err heq
    have := doCall_appends env c w (.panicked err)
    rw [heq] at this
    exact this
  · rename_i w1 heq
    have := doCall_appends env c w .returned
    rw [heq] at this
    exact this

theorem prompt_appends (P : Call → Prop) (env : Env) (w : World) :
    Appends P w (prompt env w) :=
  ⟨[], by simp [prompt_calls], by simp⟩

/-- Every call the loop adds is `mk j` for a loop counter `j`; below `maxInt`
the counter stays between its first value and the bound. -/
theorem callLoop_appends (env : Env) (mk : Int → Call) (stop : Int) (hstop : stop < maxInt)
    (fuel : Nat) :
    ∀ (i : Int) (w : World), minInt ≤ i →
      Appends (fun c => ∃ j, i ≤ j ∧ j ≤ stop ∧ c = mk j) w (callLoop env mk stop fuel i w) := by
  induction fuel with
  | zero => intro i w _; exact appends_refl _ _ _
  | succ n ih =>
    intro i w hmin
    simp only [callLoop]
    split
    · rename_i hle
      have hinc : inc i = i + 1 := inc_of_lt_maxInt i hmin (by omega)
      have hfirst : ∀ o, Appends (fun c => ∃ j, i ≤ j ∧ j ≤ stop ∧ c = mk j) w
          ((doCall env (mk i) (w.noteItoa i)).1, o) := by
        intro o
        exact ⟨[⟨mk i, env.api w.calls (mk i)⟩], rfl, by
          intro x hx
          simp only [List.mem_singleton] at hx
          subst hx
          exact ⟨i, le_refl _, hle, rfl⟩⟩
      split
      · rename_i w1 err heq
        have := hfirst (.panicked err)
        rw [heq] at this
        exact this
      · rename_i w1 heq
        have h1 := hfirst .returned
        rw [heq] at h1
        refine appends_trans h1 (appends_mono ?_ (ih (inc i) w1 (by rw [hinc]; omega)))
        rintro c ⟨j, hj1, hj2, rfl⟩
        exact ⟨j, by rw [hinc] at hj1; omega, hj2, rfl⟩
    · exact appends_refl _ _ _

/-- Every call the loop adds is `mk j` for some `j`, whatever the bound. -/
theorem callLoop_appends_any (env : Env) (mk : Int → Call) (stop : Int) (fuel : Nat) :
    ∀ (i : Int) (w : World),
      Appends (fun c => ∃ j, c = mk j) w (callLoop env mk stop fuel i w) := by
  induction fuel with
  | zero => intro i w; exact appends_refl _ _ _
  | succ n ih =>
    intro i w
    simp only [callLoop]
    have hfirst : ∀ o, Appends (fun c => ∃ j, c = mk j) w
        ((doCall env (mk i) (w.noteItoa i)).1, o) := by
      intro o
      exact ⟨[⟨mk i, env.api w.calls (mk i)⟩], rfl, by
        intro x hx
        simp only [List.mem_singleton] at hx
        subst hx
        exact ⟨i, rfl⟩⟩
    split
    · split
      · rename_i w1 err heq
        have := hfirst (.panicked err)
        rw [heq] at this
        exact this
      · rename_i w1 heq
        have h1 := hfirst .returned
        rw [heq] at h1
        exact appends_trans h1 (ih (inc i) w1)
    · exact appends_refl _ _ _

theorem createPod_appends (env : Env) (fuel : Nat) (start stop : Int) (w : World) :
    Appends (fun c => ∃ pod, c = .podCreate pod) w (createPod env fuel start stop w) := by
  have hc := createPodLoop_calls stop fuel start basePod w
  unfold createPod
  rcases hl : createPodLoop stop fuel start basePod w with ⟨pod, w1, o⟩
  rw [hl] at hc
  simp only at hc
  have hself : ∀ o1, Appends (fun c => ∃ pod, c = Call.podCreate pod) w (w1, o1) :=
    fun o1 => ⟨[], by simp [hc], by simp⟩
  cases o with
  | returned =>
    exact appends_trans (hself .returned)
      (appends_mono (fun c hcc => ⟨pod, hcc⟩) (callOrPanic_appends env _ w1))
  | panicked e => exact hself _
  | outOfFuel => exact hself _

theorem mainSequence_eq (env : Env) (fuel : Nat) (start stop : Int) (w : World) :
    mainSequence env fuel start stop w
      = andThen (createPVCs env fuel start stop w) (afterCreate env fuel start stop) := rfl

/-- Nothing after `createPVCs` creates a claim. -/
theorem afterCreate_appends (env : Env) (fuel : Nat) (start stop : Int) (w : World) :
    Appends (fun c => ∀ pvc, c ≠ .pvcCreate pvc) w (afterCreate env fuel start stop w) := by
  unfold afterCreate
  refine appends_andThen (prompt_appends _ env w) fun w => ?_
  refine appends_andThen
    (appends_mono (by rintro c rfl pvc h; cases h) (callOrPanic_appends env _ w)) fun w => ?_
  refine appends_andThen (prompt_appends _ env w) fun w => ?_
  refine appends_andThen
    (appends_mono (by rintro c ⟨pod, rfl⟩ pvc h; cases h)
      (createPod_appends env fuel start stop w)) fun w => ?_
  refine appends_andThen (prompt_appends _ env w) fun w => ?_
  refine appends_andThen
    (appends_mono (by rintro c rfl pvc h; cases h) (callOrPanic_appends env _ w)) fun w => ?_
  refine appends_andThen (prompt_appends _ env w) fun w => ?_
  rw [deletePVCs, deletePVCsLoop_eq]
  exact appends_mono (by rintro c ⟨j, rfl⟩ pvc h; cases h)
    (callLoop_appends_any env deleteCall stop fuel start w)

/-! ## Runs in which nothing fails -/

theorem callLoop_ok_rangeLen (env : Env) (hok : ApiOk env) (mk : Int → Call) (start stop : Int)
    (hmin : minInt ≤ start) (hstop : stop < maxInt) (fuel : Nat)
    (hf : rangeLen start stop < fuel) (w : World) :
    callLoop env mk stop fuel start w =
      (⟨w.calls ++ okCalls mk start (rangeLen start stop),
        w.itoaArgs ++ indices start (rangeLen start stop), w.prompts⟩, .returned) := by
  unfold rangeLen at hf ⊢
  by_cases h : start ≤ stop + 1
  · exact callLoop_ok env hok mk stop hstop _ fuel start w hmin (by omega) hf
  · obtain ⟨f, rfl⟩ : ∃ f, fuel = f + 1 := ⟨fuel - 1, by omega⟩
    have h0 : (stop + 1 - start).toNat = 0 := by omega
    rw [callLoop_empty env mk stop f start w (by omega), h0]
    simp [okCalls, indices]

theorem createPVCs_ok (env : Env) (hok : ApiOk env) (start stop : Int)
    (hmin : minInt ≤ start) (hstop : stop < maxInt) (fuel : Nat)
    (hf : rangeLen start stop < fuel) (w : World) :
    createPVCs env fuel start stop w =
      (⟨w.calls ++ okCalls createCall start (rangeLen start stop),
        w.itoaArgs ++ indices start (rangeLen start stop), w.prompts⟩, .returned) := by
  rw [createPVCs, createPVCsLoop_eq]
  exact callLoop_ok_rangeLen env hok _ start stop hmin hstop fuel hf w

theorem deletePVCs_ok (env : Env) (hok : ApiOk env) (start stop : Int)
    (hmin : minInt ≤ start) (hstop : stop < maxInt) (fuel : Nat)
    (hf : rangeLen start stop < fuel) (w : World) :
    deletePVCs env fuel start stop w =
      (⟨w.calls ++ okCalls deleteCall start (rangeLen start stop),
        w.itoaArgs ++ indices start (rangeLen start stop), w.prompts⟩, .returned) := by
  rw [deletePVCs, deletePVCsLoop_eq]
  exact callLoop_ok_rangeLen env hok _ start stop hmin hstop fuel hf w

theorem createPodLoop_ok_rangeLen (start stop : Int) (hmin : minInt ≤ start)
    (hstop : stop < maxInt) (fuel : Nat) (hf : rangeLen start stop < fuel) (w : World) :
    createPodLoop stop fuel start basePod w =
      (expectedPod start (rangeLen start stop),
        ⟨w.calls,
          w.itoaArgs ++ (indices start (rangeLen start stop)).flatMap (fun j => [j, j, j, j]),
          w.prompts⟩,
        .returned) := by
  unfold rangeLen at hf ⊢
  by_cases h : start ≤ stop + 1
  · rw [createPodLoop_ok stop hstop _ fuel start basePod w _ [] hmin (by omega) hf rfl]
    simp [podWith, expectedPod, basePod, indices]
  · obtain ⟨f, rfl⟩ : ∃ f, fuel = f + 1 := ⟨fuel - 1, by omega⟩
    have h0 : (stop + 1 - start).toNat = 0 := by omega
    have hn : ¬ start ≤ stop := by omega
    rw [h0]
    simp [createPodLoop, hn, expectedPod, basePod, indices]

theorem createPod_ok (env : Env) (hok : ApiOk env) (start stop : Int)
    (hmin : minInt ≤ start) (hstop : stop < maxInt) (fuel : Nat)
    (hf : rangeLen start stop < fuel) (w : World) :
    createPod env fuel start stop w =
      (⟨w.calls ++ [⟨.podCreate (expectedPod start (rangeLen start stop)), none⟩],
        w.itoaArgs ++ (indices start (rangeLen start stop)).flatMap (fun j => [j, j, j, j]),
        w.prompts⟩, .returned) := by
  unfold createPod
  rw [createPodLoop_ok_rangeLen start stop hmin hstop fuel hf w]
  simp [callOrPanic, doCall, hok _ _]

theorem prompt_ok (env : Env) (hin : StdinOk env) (w : World) :
    prompt env w = (⟨w.calls, w.itoaArgs, w.prompts + 1⟩, .returned) := by
  simp [prompt, hin w.prompts]

theorem callOrPanic_ok (env : Env) (hok : ApiOk env) (c : Call) (w : World) :
    callOrPanic env c w = (⟨w.calls ++ [⟨c, none⟩], w.itoaArgs, w.prompts⟩, .returned) := by
  simp [callOrPanic, doCall, hok _ _]

theorem andThen_returned (w : World) (k : World → World × Outcome) :
    andThen (w, .returned) k = k w := rfl

/-- When no API call and no read of standard input fails and the bound is
below `maxInt`, `mainSequence` returns after the full sequence of calls. -/
theorem mainSequence_ok (env : Env) (hok : ApiOk env) (hin : StdinOk env) (start stop : Int)
    (hmin : minInt ≤ start) (hstop : stop < maxInt) (fuel : Nat)
    (hf : rangeLen start stop < fuel) (w : World) :
    (mainSequence env fuel start stop w).2 = .returned ∧
    (mainSequence env fuel start stop w).1.calls =
      w.calls ++ okCalls createCall start (rangeLen start stop)
        ++ [⟨.pvcList, none⟩, ⟨.podCreate (expectedPod start (rangeLen start stop)), none⟩,
            ⟨deletePodCall, none⟩]
        ++ okCalls deleteCall start (rangeLen start stop) := by
  simp only [mainSequence, deletePod, createPVCs_ok env hok start stop hmin hstop fuel hf,
    deletePVCs_ok env hok start stop hmin hstop fuel hf,
    createPod_ok env hok start stop hmin hstop fuel hf, prompt_ok env hin,
    callOrPanic_ok env hok, andThen_returned]
  simp [deletePodCall]

theorem okEnv_apiOk : ApiOk okEnv := fun _ _ => rfl

theorem okEnv_stdinOk : StdinOk okEnv := fun _ => rfl

/-- With an API that never fails, the call made `k` passes after the loop was
entered with counter `i` is `mk (i + k)`, as long as `i + k` is within the
bound; this holds for the bound `maxInt` too. -/
theorem callLoop_prefix (env : Env) (hok : ApiOk env) (mk : Int → Call) (stop : Int)
    (hstop : stop ≤ maxInt) (fuel : Nat) :
    ∀ (i : Int) (w : World) (k : Nat), minInt ≤ i → i + k ≤ stop → k < fuel →
      (callLoop env mk stop fuel i w).1.calls[w.calls.length + k]? = some ⟨mk (i + k), none⟩ := by
  induction fuel with
  | zero => intro i w k _ _ hk; omega
  | succ n ih =>
    intro i w k hmin hik hk
    have hle : i ≤ stop := by omega
    have hapi := hok w.calls (mk i)
    simp only [callLoop, hle, if_true, doCall, World.noteItoa, hapi]
    cases k with
    | zero =>
      obtain ⟨l, hl, _⟩ := callLoop_appends_any env mk stop n (inc i)
        ⟨w.calls ++ [⟨mk i, none⟩], w.itoaArgs ++ [i], w.prompts⟩
      rw [hl]
      simp only [List.append_assoc, Nat.add_zero]
      rw [List.getElem?_append_right (le_refl _)]
      simp
    | succ k =>
      have hinc : inc i = i + 1 := inc_of_lt_maxInt i hmin (by push_cast at hik; omega)
      have := ih (inc i) ⟨w.calls ++ [⟨mk i, none⟩], w.itoaArgs ++ [i], w.prompts⟩ k
        (by rw [hinc]; omega) (by rw [hinc]; push_cast at hik ⊢; omega) (by omega)
      simp only [List.length_append, List.length_singleton] at this
      rw [show w.calls.length + (k + 1) = w.calls.length + 1 + k by omega, this, hinc]
      congr 3
      push_cast
      omega

/-! ## `strconv.Itoa` is injective -/

theorem digitVal_digitChar (k : Nat) (h : k < 10) : digitVal (Nat.digitChar k) = k := by
  interval_cases k <;> rfl

theorem digitChar_ne_minus (k : Nat) (h : k < 10) : Nat.digitChar k ≠ '-' := by
  interval_cases k <;> decide

theorem parseDigits_toDigitsCore (fuel : Nat) :
    ∀ (n : Nat) (ds : List Char), n < fuel →
      parseDigits 0 (Nat.toDigitsCore 10 fuel n ds) = parseDigits n ds := by
  induction fuel with
  | zero => intro n ds h; omega
  | succ f ih =>
    intro n ds h
    have hd := digitVal_digitChar (n % 10) (Nat.mod_lt _ (by decide))
    simp only [Nat.toDigitsCore]
    split
    · rename_i h0
      simp only [parseDigits, List.foldl_cons, hd]
      congr 1
      omega
    · rename_i h0
      rw [ih (n / 10) _ (by omega)]
      simp only [parseDigits, List.foldl_cons, hd]
      congr 1
      omega

theorem toDigitsCore_no_minus (fuel : Nat) :
    ∀ (n : Nat) (ds : List Char), (∀ c ∈ ds, c ≠ '-') →
      ∀ c ∈ Nat.toDigitsCore 10 fuel n ds, c ≠ '-' := by
  induction fuel with
  | zero => intro n ds h; simpa [Nat.toDigitsCore] using h
  | succ f ih =>
    intro n ds h
    have hd := digitChar_ne_minus (n % 10) (Nat.mod_lt _ (by decide))
    have hcons : ∀ c ∈ Nat.digitChar (n % 10) :: ds, c ≠ '-' := by
      intro c hc
      rcases List.mem_cons.mp hc with rfl | hc
      · exact hd
      · exact h c hc
    simp only [Nat.toDigitsCore]
    split
    · exact hcons
    · exact ih _ _ hcons

theorem repr_injective (a b : Nat) (h : Nat.repr a = Nat.repr b) : a = b := by
  have h1 : Nat.toDigits 10 a = Nat.toDigits 10 b := by
    have := congrArg String.data h
    simpa [Nat.repr, List.asString] using this
  have ha := parseDigits_toDigitsCore (a + 1) a [] (by omega)
  have hb := parseDigits_toDigitsCore (b + 1) b [] (by omega)
  simp only [Nat.toDigits] at h1
  rw [h1, hb] at ha
  simpa [parseDigits] using ha.symm

theorem repr_ne_minus (a b : Nat) : "-" ++ Nat.repr a ≠ Nat.repr b := by
  intro h
  have h1 := congrArg String.data h
  simp only [String.data_append, Nat.repr, List.asString, Nat.toDigits] at h1
  have hmem : '-' ∈ Nat.toDigitsCore 10 (b + 1) b [] := by
    rw [← h1]
    exact List.mem_append_left _ (by decide)
  exact toDigitsCore_no_minus (b + 1) b [] (by simp) '-' hmem rfl

theorem append_left_cancel (p s t : String) (h : p ++ s = p ++ t) : s = t := by
  have h1 := congrArg String.data h
  simp only [String.data_append] at h1
  exact String.ext (List.append_cancel_left h1)

/-- Different integers have different decimal renderings. -/
theorem Itoa_injective (i j : Int) (h : Itoa i = Itoa j) : i = j := by
  unfold Itoa at h
  split at h <;> split at h
  · have := repr_injective _ _ (append_left_cancel _ _ _ h)
    omega
  · exact absurd h (repr_ne_minus _ _)
  · exact absurd h.symm (repr_ne_minus _ _)
  · have := repr_injective _ _ h
    omega

theorem pvcName_injective : Function.Injective pvcName := by
  intro i j h
  exact Itoa_injective i j (append_left_cancel _ _ _ h)

theorem indices_nodup (start : Int) (n : Nat) : (indices start n).Nodup := by
  unfold indices
  apply List.Nodup.map _ (List.nodup_range n)
  intro a b h
  simp only at h
  omega

theorem indices_length (start : Int) (n : Nat) : (indices start n).length = n := by
  simp [indices]

theorem filterMap_some_eq_map {α β : Type} (f : α → β) (l : List α) :
    l.filterMap (fun x => some (f x)) = l.map f := by
  induction l with
  | nil => rfl
  | cons a t ih => simp [List.filterMap_cons, ih]

theorem createdNames_okCalls (start : Int) (n : Nat) :
    createdNames (okCalls createCall start n) = (indices start n).map pvcName := by
  simp only [createdNames, okCalls, indices, createCall, newPVC, pvcName, List.filterMap_map,
    List.map_map, Function.comp_def]
  exact filterMap_some_eq_map _ _

theorem deletedNames_okCalls (start : Int) (n : Nat) :
    deletedNames (okCalls deleteCall start n) = (indices start n).map pvcName := by
  simp only [deletedNames, okCalls, indices, deleteCall, pvcName, List.filterMap_map,
    List.map_map, Function.comp_def]
  exact filterMap_some_eq_map _ _

theorem okCalls_eq_map_indices (mk : Int → Call) (start : Int) (n : Nat) :
    okCalls mk start n = (indices start n).map (fun i => (⟨mk i, none⟩ : Exchange)) := by
  simp [okCalls, indices, Function.comp_def]

theorem mem_indices_rangeLen (start stop i : Int) :
    i ∈ indices start (rangeLen start stop) ↔ start ≤ i ∧ i ≤ stop := by
  simp only [indices, rangeLen, List.mem_map, List.mem_range]
  constructor
  · rintro ⟨k, hk, rfl⟩
    omega
  · intro h
    exact ⟨(i - start).toNat, by omega, by omega⟩

theorem indices_increasing (start : Int) (n : Nat) :
    (indices start n).Pairwise (fun a b => a < b) := by
  unfold indices
  rw [List.pairwise_map]
  exact (List.pairwise_lt_range n).imp (by intro a b h; omega)

theorem rangeLen_cast (start stop : Int) (h : start ≤ stop) :
    ((rangeLen start stop : Nat) : Int) = stop - start + 1 := by
  unfold rangeLen
  omega

/-- Below `maxInt`, whatever the API answers, `createPod` makes exactly one
call: the `Create` of the pod with the volumes and mounts of the range. -/
theorem createPod_calls (env : Env) (start stop : Int) (hmin : minInt ≤ start)
    (hstop : stop < maxInt) (fuel : Nat) (hf : rangeLen start stop < fuel) (w : World) :
    (createPod env fuel start stop w).1.calls
      = w.calls ++ [⟨.podCreate (expectedPod start (rangeLen start stop)),
          env.api w.calls (.podCreate (expectedPod start (rangeLen start stop)))⟩] := by
  unfold createPod
  rw [createPodLoop_ok_rangeLen start stop hmin hstop fuel hf w]
  simp only [callOrPanic, doCall]
  split <;> rename_i heq <;> simp only [Prod.mk.injEq] at heq <;> rw [← heq.1]

theorem expectedPod_volumes (start : Int) (n : Nat) :
    (expectedPod start n).Spec.Volumes = (indices start n).map newVolume := by
  simp [expectedPod, indices, Function.comp_def]

theorem expectedPod_containers (start : Int) (n : Nat) :
    ∃ c, (expectedPod start n).Spec.Containers = [c] ∧
      c.VolumeMounts = (indices start n).map newVolumeMount := by
  refine ⟨_, rfl, ?_⟩
  simp [indices, Function.comp_def]

/-- With an API that never fails, the loop makes the call `mk j` for each
counter value `j` in turn, whatever the bound. -/
theorem callLoop_calls_loopIndices (env : Env) (hok : ApiOk env) (mk : Int → Call) (stop : Int)
    (fuel : Nat) :
    ∀ (i : Int) (w : World),
      (callLoop env mk stop fuel i w).1.calls
        = w.calls ++ (loopIndices stop fuel i).map (fun j => (⟨mk j, none⟩ : Exchange)) := by
  induction fuel with
  | zero => intro i w; simp [callLoop, loopIndices]
  | succ n ih =>
    intro i w
    simp only [callLoop, loopIndices]
    split
    · simp only [doCall, World.noteItoa, hok w.calls (mk i)]
      rw [ih]
      simp
    · simp

theorem createdNames_map_createCall (js : List Int) :
    createdNames (js.map (fun j => (⟨createCall j, none⟩ : Exchange))) = js.map pvcName := by
  simp only [createdNames, createCall, newPVC, pvcName, List.filterMap_map, Function.comp_def]
  exact filterMap_some_eq_map _ _

theorem deletedNames_map_deleteCall (js : List Int) :
    deletedNames (js.map (fun j => (⟨deleteCall j, none⟩ : Exchange))) = js.map pvcName := by
  simp only [deletedNames, deleteCall, pvcName, List.filterMap_map, Function.comp_def]
  exact filterMap_some_eq_map _ _

/-- For every range and every number of loop passes, with an API that never
fails, the names `deletePVCs` passes to `Delete` are, in the same order, the
names of the claims `createPVCs` passes to `Create`. -/
theorem deleted_names_eq_created_names (env : Env) (hok : ApiOk env) (fuel : Nat)
    (start stop : Int) (w : World) :
    deletedNames ((deletePVCs env fuel start stop w).1.calls.drop w.calls.length)
      = createdNames ((createPVCs env fuel start stop w).1.calls.drop w.calls.length) := by
  rw [createPVCs, createPVCsLoop_eq, deletePVCs, deletePVCsLoop_eq,
    callLoop_calls_loopIndices env hok, callLoop_calls_loopIndices env hok,
    List.drop_left, List.drop_left, createdNames_map_createCall, deletedNames_map_deleteCall]

theorem mem_storeAfter_creates (js : List Int) :
    ∀ (store : List String) (s : String),
      s ∈ storeAfter store (js.map createCall) ↔ s ∈ store ∨ s ∈ js.map pvcName := by
  induction js with
  | nil => intro store s; simp [storeAfter]
  | cons j t ih =>
    intro store s
    have hstep : storeAfter store ((j :: t).map createCall)
        = storeAfter (storeStep store (createCall j)) (t.map createCall) := rfl
    rw [hstep, ih]
    simp only [storeStep, createCall, newPVC, List.map_cons, List.mem_cons]
    change (s ∈ (if pvcName j ∈ store then store else store ++ [pvcName j]) ∨ _) ↔ _
    split
    · rename_i hin
      constructor
      · rintro (h | h)
        · exact Or.inl h
        · exact Or.inr (Or.inr h)
      · rintro (h | h | h)
        · exact Or.inl h
        · exact Or.inl (h ▸ hin)
        · exact Or.inr h
    · simp only [List.mem_append, List.mem_singleton]
      tauto

theorem mem_storeAfter_deletes (js : List Int) :
    ∀ (store : List String) (s : String),
      s ∈ storeAfter store (js.map deleteCall) ↔ s ∈ store ∧ s ∉ js.map pvcName := by
  induction js with
  | nil => intro store s; simp [storeAfter]
  | cons j t ih =>
    intro store s
    have hstep : storeAfter store ((j :: t).map deleteCall)
        = storeAfter (storeStep store (deleteCall j)) (t.map deleteCall) := rfl
    rw [hstep, ih]
    simp only [storeStep, deleteCall, List.map_cons, List.mem_cons, List.mem_filter, not_or]
    change (_ ∧ decide (s ≠ pvcName j) = true) ∧ _ ↔ _
    simp only [decide_eq_true_eq]
    tauto

/-- For `end < maxInt`, with every call succeeding, `createPVCs` followed by
`deletePVCs` returns, and a store that held none of the names of the range
holds the same set of claim names afterwards. -/
theorem create_then_delete_restores (env : Env) (hok : ApiOk env) (start stop : Int)
    (hs : IsGoInt start) (hlt : stop < maxInt) (fuel : Nat) (hf : rangeLen start stop < fuel)
    (store : List String)
    (hdisj : ∀ j ∈ indices start (rangeLen start stop), pvcName j ∉ store) :
    (andThen (createPVCs env fuel start stop World.init)
      (deletePVCs env fuel start stop)).2 = .returned ∧
    ∀ s, s ∈ storeAfter store (callsOf (andThen (createPVCs env fuel start stop World.init)
      (deletePVCs env fuel start stop)).1.calls) ↔ s ∈ store := by
  rw [createPVCs_ok env hok start stop hs.1 hlt fuel hf, andThen_returned,
    deletePVCs_ok env hok start stop hs.1 hlt fuel hf]
  refine ⟨rfl, fun s => ?_⟩
  have e : callsOf (World.init.calls ++ okCalls createCall start (rangeLen start stop)
        ++ okCalls deleteCall start (rangeLen start stop))
      = (indices start (rangeLen start stop)).map createCall
        ++ (indices start (rangeLen start stop)).map deleteCall := by
    simp [callsOf, okCalls, indices, World.init, Function.comp_def]
  simp only [e]
  unfold storeAfter
  rw [List.foldl_append]
  have h1 := mem_storeAfter_deletes (indices start (rangeLen start stop))
    (storeAfter store ((indices start (rangeLen start stop)).map createCall)) s
  unfold storeAfter at h1
  rw [h1]
  have h2 := mem_storeAfter_creates (indices start (rangeLen start stop)) store s
  unfold storeAfter at h2
  rw [h2]
  constructor
  · rintro ⟨h | h, hn⟩
    · exact h
    · exact absurd h hn
  · intro h
    refine ⟨Or.inl h, fun hm => ?_⟩
    obtain ⟨j, hj, rfl⟩ := List.mem_map.mp hm
    exact hdisj j hj h

/-! ## The claims -/

/-- C1 as stated fails at `start = end = maxInt` with every `Create`
succeeding: the claim gives exactly one `Create` call, but `createPVCs` does
not return however many loop passes it is given, it makes one `Create` call
in each pass, and the second call is for the wrapped counter `minInt`. -/
theorem createPVCs_maxInt_does_not_stop :
    (∀ fuel : Nat,
      (createPVCs okEnv fuel maxInt maxInt World.init).2 = .outOfFuel ∧
      (createPVCs okEnv fuel maxInt maxInt World.init).1.calls.length = fuel) ∧
    callsOf (createPVCs okEnv 2 maxInt maxInt World.init).1.calls
      = [.pvcCreate (newPVC "pvc-9223372036854775807"),
         .pvcCreate (newPVC "pvc--9223372036854775808")] ∧
    (((createPVCs okEnv 2 maxInt maxInt World.init).1.calls.length : Nat) : Int)
      ≠ maxInt - maxInt + 1 := by
  refine ⟨fun fuel => ?_, by decide, by decide⟩
  have h := callLoop_maxInt okEnv okEnv_apiOk createCall fuel maxInt World.init (by decide)
  rw [createPVCs, createPVCsLoop_eq]
  refine ⟨h.1, ?_⟩
  rw [h.2]
  simp [World.init]

/-- C1, amended: for Go `int` values `start <= end` with `end < maxInt` and
every `Create` succeeding, `createPVCs` returns after exactly
`end - start + 1` calls, which are the `Create` calls for the indices of
`[start, end]` in increasing order; the name of the claim created for `i` is
`pvcName i`, a function of `i` alone, and the names are pairwise distinct. -/
theorem createPVCs_creates_range (env : Env) (hok : ApiOk env) (start stop : Int)
    (hs : IsGoInt start) (he : IsGoInt stop) (hle : start ≤ stop) (hlt : stop < maxInt)
    (fuel : Nat) (hf : rangeLen start stop < fuel) (w : World) :
    (createPVCs env fuel start stop w).2 = .returned ∧
    (createPVCs env fuel start stop w).1.calls
      = w.calls ++ (indices start (rangeLen start stop)).map
          (fun i => (⟨.pvcCreate (newPVC (pvcName i)), none⟩ : Exchange)) ∧
    ((indices start (rangeLen start stop)).length : Int) = stop - start + 1 ∧
    (∀ i, i ∈ indices start (rangeLen start stop) ↔ start ≤ i ∧ i ≤ stop) ∧
    (indices start (rangeLen start stop)).Pairwise (fun a b => a < b) ∧
    ((indices start (rangeLen start stop)).map pvcName).Nodup := by
  have _ := he
  rw [createPVCs_ok env hok start stop hs.1 hlt fuel hf w, okCalls_eq_map_indices]
  refine ⟨rfl, rfl, ?_, mem_indices_rangeLen start stop, indices_increasing _ _,
    List.Nodup.map pvcName_injective (indices_nodup _ _)⟩
  rw [indices_length]
  exact rangeLen_cast start stop hle

/-- Witness for C1, amended: the range `[-1, 1]`. -/
theorem createPVCs_creates_range_witness :
    createdNames (createPVCs okEnv 4 (-1) 1 World.init).1.calls = ["pvc--1", "pvc-0", "pvc-1"] := by
  rw [(createPVCs_creates_range okEnv okEnv_apiOk (-1) 1 (by decide) (by decide) (by decide)
    (by decide) 4 (by decide) World.init).2.1]
  decide

/-- C2 as stated fails at `start = end = maxInt`: the claim gives exactly one
`Create` call by `createPod`, but `createPod` never leaves its loop and makes
no API call at all, however many loop passes it is given; after three passes
it has called `strconv.Itoa` twelve times and is still in the loop. -/
theorem createPod_maxInt_submits_nothing :
    (∀ fuel : Nat,
      (createPod okEnv fuel maxInt maxInt World.init).2 = .outOfFuel ∧
      (createPod okEnv fuel maxInt maxInt World.init).1.calls = []) ∧
    (createPod okEnv 3 maxInt maxInt World.init).1.itoaArgs.length = 12 := by
  refine ⟨fun fuel => ?_, by decide⟩
  have h := createPodLoop_maxInt fuel maxInt basePod World.init (by decide) (by decide)
  have hc := createPodLoop_calls maxInt fuel maxInt basePod World.init
  unfold createPod
  rcases hl : createPodLoop maxInt fuel maxInt basePod World.init with ⟨pod, w1, o⟩
  rw [hl] at h hc
  simp only at h hc
  obtain ⟨h1, _⟩ := h
  subst h1
  exact ⟨rfl, hc⟩

/-- C2, amended: for Go `int` values `start` and `end` with `end < maxInt`,
`createPod` makes exactly one API call, the `Create` of a pod; the `ClaimName`
values of its volumes, and the `Name` values of the volume mounts of its one
container, are the names of the claims that `createPVCs` creates for the same
range when every `Create` succeeds: the lists are equal, hence so are the
sets, with no omission and no extra. -/
theorem createPod_references_range (env : Env) (start stop : Int)
    (hs : IsGoInt start) (he : IsGoInt stop) (hlt : stop < maxInt) (fuel : Nat)
    (hf : rangeLen start stop < fuel) (w : World) :
    ∃ pod err c,
      (createPod env fuel start stop w).1.calls = w.calls ++ [⟨.podCreate pod, err⟩] ∧
      pod.Spec.Containers = [c] ∧
      pod.Spec.Volumes.map (fun v => v.VolumeSource.PersistentVolumeClaim.map (·.ClaimName))
        = (createdNames (createPVCs okEnv fuel start stop World.init).1.calls).map some ∧
      c.VolumeMounts.map (·.Name)
        = createdNames (createPVCs okEnv fuel start stop World.init).1.calls := by
  have _ := he
  obtain ⟨c, hc, hm⟩ := expectedPod_containers start (rangeLen start stop)
  refine ⟨expectedPod start (rangeLen start stop), _, c,
    createPod_calls env start stop hs.1 hlt fuel hf w, hc, ?_, ?_⟩
  · rw [createPVCs_ok okEnv okEnv_apiOk start stop hs.1 hlt fuel hf, expectedPod_volumes]
    simp only [World.init, List.nil_append, createdNames_okCalls, List.map_map]
    rfl
  · rw [createPVCs_ok okEnv okEnv_apiOk start stop hs.1 hlt fuel hf, hm]
    simp only [World.init, List.nil_append, createdNames_okCalls, List.map_map]
    rfl

/-- Witness for C2, amended: the range `[0, 1]`. -/
theorem createPod_references_range_witness :
    ∃ pod err c,
      (createPod okEnv 3 0 1 World.init).1.calls = [⟨.podCreate pod, err⟩] ∧
      pod.Spec.Containers = [c] ∧
      pod.Spec.Volumes.map (fun v => v.VolumeSource.PersistentVolumeClaim.map (·.ClaimName))
        = [some "pvc-0", some "pvc-1"] ∧
      c.VolumeMounts.map (·.Name) = ["pvc-0", "pvc-1"] := by
  obtain ⟨pod, err, c, h1, h2, h3, h4⟩ :=
    createPod_references_range okEnv 0 1 (by decide) (by decide) (by decide) 3 (by decide)
      World.init
  have hn : createdNames (createPVCs okEnv 3 0 1 World.init).1.calls = ["pvc-0", "pvc-1"] := by
    decide
  rw [hn] at h3 h4
  exact ⟨pod, err, c, h1, h2, h3, h4⟩

/-- C3: in every run of `mainSequence`, an API call that returns an error
is the last call of the trace and the run has panicked with that error; and
with `start = 0`, `end = 3`, if the trace has a failed `Create` for index 1
then the calls are exactly the `Create` calls for 0 and 1, so that no pod is
created. -/
theorem api_error_ends_run (env : Env) (fuel : Nat) (start stop : Int) :
    (∀ (k : Nat) (x : Exchange) (e : String),
      (mainSequence env fuel start stop World.init).1.calls[k]? = some x → x.err = some e →
        k + 1 = (mainSequence env fuel start stop World.init).1.calls.length ∧
        (mainSequence env fuel start stop World.init).2 = .panicked e) ∧
    (∀ e : String,
      (⟨createCall 1, some e⟩ : Exchange) ∈ (mainSequence env fuel 0 3 World.init).1.calls →
        callsOf (mainSequence env fuel 0 3 World.init).1.calls = [createCall 0, createCall 1] ∧
        ∀ pod, Call.podCreate pod ∉ callsOf (mainSequence env fuel 0 3 World.init).1.calls) := by
  constructor
  · intro k x e hk he
    exact errLast_last _ (mainSequence_errLast env fuel start stop World.init (by intro x hx; cases hx))
      k x e hk he
  · intro e h
    have key : callsOf (mainSequence env fuel 0 3 World.init).1.calls
        = [createCall 0, createCall 1] := by
      have i0 : inc 0 = 1 := by decide
      have i1 : inc 1 = 2 := by decide
      have n01 : createCall 0 ≠ createCall 1 := by decide
      rcases fuel with _ | _ | fuel
      · simp [mainSequence, andThen, createPVCs, createPVCsLoop, World.init] at h
      · simp only [mainSequence, createPVCs, createPVCsLoop_eq, callLoop, doCall, World.noteItoa,
          World.init] at h ⊢
        cases h0 : env.api [] (createCall 0) <;> simp_all [andThen, callsOf]
      · rw [mainSequence_eq] at h ⊢
        simp only [createPVCs, createPVCsLoop_eq, callLoop, doCall, World.noteItoa,
          World.init, i0] at h ⊢
        cases h0 : env.api [] (createCall 0)
        · cases h1 : env.api [⟨createCall 0, none⟩] (createCall 1)
          · exfalso
            simp only [h0, h1, Int.reduceLE, if_true, List.nil_append, List.cons_append, i1] at h
            obtain ⟨l1, e1, p1⟩ := callLoop_appends env createCall 3 (by decide) fuel 2
              ⟨[⟨createCall 0, none⟩, ⟨createCall 1, none⟩], [0, 1], 0⟩ (by decide)
            have h2 : Appends (fun c => (∃ j, (2 : Int) ≤ j ∧ j ≤ 3 ∧ c = createCall j) ∨
                ∀ pvc, c ≠ .pvcCreate pvc)
                ⟨[⟨createCall 0, none⟩, ⟨createCall 1, none⟩], [0, 1], 0⟩
                (andThen (callLoop env createCall 3 fuel 2
                  ⟨[⟨createCall 0, none⟩, ⟨createCall 1, none⟩], [0, 1], 0⟩)
                  (afterCreate env (fuel + 1 + 1) 0 3)) :=
              appends_andThen (appends_mono (fun c hc => Or.inl hc) ⟨l1, e1, p1⟩)
                (fun w1 => appends_mono (fun c hc => Or.inr hc)
                  (afterCreate_appends env _ 0 3 w1))
            obtain ⟨l, el, pl⟩ := h2
            rw [el] at h
            simp only [List.cons_append, List.nil_append, List.mem_cons, Exchange.mk.injEq,
              reduceCtorEq, and_false, false_or] at h
            have := pl _ h
            simp only at this
            rcases this with ⟨j, hj1, hj2, hj⟩ | hno
            · have hj3 : j = 2 ∨ j = 3 := by omega
              rcases hj3 with rfl | rfl
              · exact absurd hj (by decide)
              · exact absurd hj (by decide)
            · exact hno _ rfl
          · simp_all [andThen, callsOf]
        · simp_all [andThen, callsOf]
    refine ⟨key, ?_⟩
    intro pod hp
    rw [key] at hp
    simp [createCall] at hp

/-- Witness for C3: when creating the claim of index 1 fails, the run over
`[0, 3]` makes the two `Create` calls for 0 and 1 and nothing else. -/
theorem api_error_ends_run_witness :
    (⟨createCall 1, some "create failed"⟩ : Exchange)
        ∈ (mainSequence failCreate1 9 0 3 World.init).1.calls ∧
    callsOf (mainSequence failCreate1 9 0 3 World.init).1.calls
      = [createCall 0, createCall 1] ∧
    (mainSequence failCreate1 9 0 3 World.init).2 = .panicked "create failed" :=
  ⟨by decide,
   ((api_error_ends_run failCreate1 9 0 3).2 "create failed" (by decide)).1,
   ((api_error_ends_run failCreate1 9 0 3).1 1 ⟨createCall 1, some "create failed"⟩
      "create failed" (by decide) rfl).2⟩

/-- C4: every call `deletePVCs` adds to the trace is a claim `Delete` whose
options have the propagation policy set, to `Foreground`; `deletePod` adds
exactly one call, the `Delete` of the pod `hold-massive-pvcs`, with the
propagation policy set to `Foreground`. -/
theorem delete_calls_propagate_foreground (env : Env) (fuel : Nat) (start stop : Int)
    (w : World) :
    (∃ l, (deletePVCs env fuel start stop w).1.calls = w.calls ++ l ∧
      ∀ x ∈ l, ∃ name opts, x.call = .pvcDelete name opts ∧
        opts.PropagationPolicy = some DeletionPropagation.DeletePropagationForeground) ∧
    (∃ name opts err, (deletePod env w).1.calls = w.calls ++ [⟨.podDelete name opts, err⟩] ∧
      name = "hold-massive-pvcs" ∧
      opts.PropagationPolicy = some DeletionPropagation.DeletePropagationForeground) := by
  constructor
  · rw [deletePVCs, deletePVCsLoop_eq]
    obtain ⟨l, h1, h2⟩ := callLoop_appends_any env deleteCall stop fuel start w
    refine ⟨l, h1, fun x hx => ?_⟩
    obtain ⟨j, hj⟩ := h2 x hx
    exact ⟨_, _, hj, rfl⟩
  · refine ⟨_, _, env.api w.calls deletePodCall, ?_, rfl, rfl⟩
    simp only [deletePod, callOrPanic, doCall, deletePodCall]
    split <;> rename_i heq <;> simp only [Prod.mk.injEq] at heq <;> rw [← heq.1]

/-- Witness for C4: the `Delete` calls for the range `[0, 1]` and for the
pod. -/
theorem delete_calls_propagate_foreground_witness :
    callsOf (deletePVCs okEnv 3 0 1 World.init).1.calls
      = [.pvcDelete "pvc-0" ⟨some DeletionPropagation.DeletePropagationForeground⟩,
         .pvcDelete "pvc-1" ⟨some DeletionPropagation.DeletePropagationForeground⟩] ∧
    callsOf (deletePod okEnv World.init).1.calls
      = [.podDelete "hold-massive-pvcs"
          ⟨some DeletionPropagation.DeletePropagationForeground⟩] := by
  decide

/-- C5: when `start > end`, `createPVCs` and `deletePVCs` return normally as
soon as the loop condition has been evaluated once, leaving the world as it
was: no `Create` call and no `Delete` call is made. -/
theorem empty_range_is_noop (env : Env) (fuel : Nat) (start stop : Int) (w : World)
    (h : stop < start) :
    createPVCs env (fuel + 1) start stop w = (w, .returned) ∧
    deletePVCs env (fuel + 1) start stop w = (w, .returned) := by
  have hn : ¬ start ≤ stop := by omega
  simp [createPVCs, createPVCsLoop, deletePVCs, deletePVCsLoop, hn]

/-- Witness for C5: the range `[5, 2]`. -/
theorem empty_range_is_noop_witness :
    (2 : Int) < 5 ∧
    createPVCs okEnv 1 5 2 World.init = (World.init, .returned) ∧
    deletePVCs okEnv 1 5 2 World.init = (World.init, .returned) :=
  ⟨by decide, empty_range_is_noop okEnv 0 5 2 World.init (by decide)⟩

/-- C6 as stated fails: with every API call succeeding but standard input
unreadable, the run over `[0, 0]` panics in the first `prompt`, after the one
`Create` call and before any `List` call; and with every call succeeding and
every prompt answered, the run over `[maxInt, maxInt]` never gets past
`createPVCs`. -/
theorem main_sequence_cut_short :
    ((mainSequence brokenStdin 2 0 0 World.init).2 = .panicked "read error" ∧
      callsOf (mainSequence brokenStdin 2 0 0 World.init).1.calls = [createCall 0] ∧
      callsOf (mainSequence brokenStdin 2 0 0 World.init).1.calls
        ≠ [createCall 0, .pvcList, .podCreate (expectedPod 0 1), deletePodCall, deleteCall 0]) ∧
    (∀ fuel, (mainSequence okEnv fuel maxInt maxInt World.init).2 = .outOfFuel) := by
  refine ⟨by decide, fun fuel => ?_⟩
  have h := callLoop_maxInt okEnv okEnv_apiOk createCall fuel maxInt World.init (by decide)
  rw [mainSequence_eq, createPVCs, createPVCsLoop_eq]
  unfold andThen
  rw [h.1]
  exact h.1

/-- C6, amended: when `start <= end < maxInt`, every API call succeeds and no
read of standard input fails, `mainSequence` returns and its calls are, in
this order: the `Create` calls for `start..end`, one `List`, one pod `Create`
(of the pod with one volume and one mount per index of the range), one pod
`Delete`, and the `Delete` calls for `start..end`. -/
theorem main_sequence_order (env : Env) (hok : ApiOk env) (hin : StdinOk env)
    (start stop : Int) (hs : IsGoInt start) (hle : start ≤ stop) (hlt : stop < maxInt)
    (fuel : Nat) (hf : rangeLen start stop < fuel) :
    (mainSequence env fuel start stop World.init).2 = .returned ∧
    ((rangeLen start stop : Nat) : Int) = stop - start + 1 ∧
    (mainSequence env fuel start stop World.init).1.calls =
      okCalls createCall start (rangeLen start stop)
        ++ [⟨.pvcList, none⟩, ⟨.podCreate (expectedPod start (rangeLen start stop)), none⟩,
            ⟨deletePodCall, none⟩]
        ++ okCalls deleteCall start (rangeLen start stop) := by
  obtain ⟨h1, h2⟩ := mainSequence_ok env hok hin start stop hs.1 hlt fuel hf World.init
  refine ⟨h1, ?_, ?_⟩
  · unfold rangeLen; omega
  · rw [h2]; simp [World.init]

/-- Witness for C6, amended: the range `[0, 1]`. -/
theorem main_sequence_order_witness :
    callsOf (mainSequence okEnv 3 0 1 World.init).1.calls =
      [createCall 0, createCall 1, .pvcList, .podCreate (expectedPod 0 2), deletePodCall,
        deleteCall 0, deleteCall 1] := by
  rw [(main_sequence_order okEnv okEnv_apiOk okEnv_stdinOk 0 1 (by decide) (by decide)
    (by decide) 3 (by decide)).2.2]
  decide

/-- C7 as stated fails: the claims created for the range `[0, 2]` are named
`pvc-0`, `pvc-1` and `pvc-2`, not `claim-0`, `claim-1` and `claim-2`. -/
theorem created_names_are_not_claim_names :
    createdNames (createPVCs okEnv 4 0 2 World.init).1.calls = ["pvc-0", "pvc-1", "pvc-2"] ∧
    createdNames (createPVCs okEnv 4 0 2 World.init).1.calls
      ≠ ["claim-0", "claim-1", "claim-2"] := by
  decide

/-- C7, amended: with every `Create` succeeding, for every index `i` in
`[start, end]` the call that `createPVCs` makes for `i` (its call number
`i - start`, present as soon as the loop is given more than `i - start`
passes) creates a claim named `pvc-` followed by the decimal rendering of
`i`; for `start = 0` and `end = 2` the created names are `pvc-0`, `pvc-1` and
`pvc-2`; and in every run, whatever the API answers, every call `createPVCs`
makes creates a claim named `pvc-` followed by the decimal rendering of an
integer. -/
theorem created_claim_name (env : Env) (hok : ApiOk env) (start stop i : Int)
    (hs : IsGoInt start) (he : IsGoInt stop) (h1 : start ≤ i) (h2 : i ≤ stop)
    (fuel : Nat) (hf : (i - start).toNat < fuel) (w : World) :
    (∃ pvc, (createPVCs env fuel start stop w).1.calls[w.calls.length + (i - start).toNat]?
        = some ⟨.pvcCreate pvc, none⟩ ∧
      pvc.ObjectMeta.Name = "pvc-" ++ Itoa i) ∧
    (∀ fuel0, 3 < fuel0 →
      createdNames (createPVCs env fuel0 0 2 World.init).1.calls
        = ["pvc-0", "pvc-1", "pvc-2"]) ∧
    (∀ (env0 : Env) (fuel0 : Nat) (w0 : World),
      ∀ x ∈ (createPVCs env0 fuel0 start stop w0).1.calls.drop w0.calls.length,
        ∃ j pvc, x.call = .pvcCreate pvc ∧ pvc.ObjectMeta.Name = "pvc-" ++ Itoa j) := by
  refine ⟨?_, ?_, ?_⟩
  rotate_left 2
  · intro env0 fuel0 w0 x hx
    rw [createPVCs, createPVCsLoop_eq] at hx
    obtain ⟨l, hl, pl⟩ := callLoop_appends_any env0 createCall stop fuel0 start w0
    rw [hl, List.drop_left] at hx
    obtain ⟨j, hj⟩ := pl x hx
    exact ⟨j, _, hj, rfl⟩
  · refine ⟨newPVC ("pvc-" ++ Itoa i), ?_, rfl⟩
    rw [createPVCs, createPVCsLoop_eq]
    have := callLoop_prefix env hok createCall stop he.2 fuel start w (i - start).toNat hs.1
      (by omega) hf
    rw [this]
    have e : start + ((i - start).toNat : Int) = i := by omega
    rw [e]
    rfl
  · intro fuel0 h0
    rw [createPVCs_ok env hok 0 2 (by decide) (by decide) fuel0 (by
      have : rangeLen 0 2 = 3 := by decide
      omega) World.init]
    have : rangeLen 0 2 = 3 := by decide
    rw [this]
    decide

/-- Witness for C7, amended: index 1 of the range `[0, 2]`. -/
theorem created_claim_name_witness :
    ∃ pvc, (createPVCs okEnv 4 0 2 World.init).1.calls[1]? = some ⟨.pvcCreate pvc, none⟩ ∧
      pvc.ObjectMeta.Name = "pvc-1" :=
  (created_claim_name okEnv okEnv_apiOk 0 2 1 (by decide) (by decide) (by decide) (by decide)
    4 (by decide) World.init).1

/-- C8 as stated fails at `start = end = maxInt` with every call succeeding:
the claim has `createPVCs` followed by `deletePVCs` leave the store as it
was, but `createPVCs` does not return however many loop passes it is given,
so that every call of the run is a `Create`, no `Delete` is ever made, and
the store, empty at first, holds a claim after the first pass. -/
theorem create_then_delete_maxInt_never_deletes :
    (∀ fuel : Nat,
      (andThen (createPVCs okEnv fuel maxInt maxInt World.init)
        (deletePVCs okEnv fuel maxInt maxInt)).2 = .outOfFuel ∧
      ∀ x ∈ (andThen (createPVCs okEnv fuel maxInt maxInt World.init)
        (deletePVCs okEnv fuel maxInt maxInt)).1.calls, ∃ j, x.call = createCall j) ∧
    storeAfter [] (callsOf (andThen (createPVCs okEnv 1 maxInt maxInt World.init)
      (deletePVCs okEnv 1 maxInt maxInt)).1.calls) = ["pvc-9223372036854775807"] ∧
    storeAfter [] (callsOf (andThen (createPVCs okEnv 1 maxInt maxInt World.init)
      (deletePVCs okEnv 1 maxInt maxInt)).1.calls) ≠ [] := by
  refine ⟨fun fuel => ?_, by decide, by decide⟩
  have h := callLoop_maxInt okEnv okEnv_apiOk createCall fuel maxInt World.init (by decide)
  obtain ⟨l, hl, pl⟩ := callLoop_appends_any okEnv createCall maxInt fuel maxInt World.init
  constructor
  · rw [createPVCs, createPVCsLoop_eq]
    unfold andThen
    rw [h.1]
    exact h.1
  · rw [createPVCs, createPVCsLoop_eq]
    unfold andThen
    rw [h.1]
    simp only
    rw [hl]
    intro x hx
    simp only [World.init, List.nil_append] at hx
    exact pl x hx

/-- C8, amended: with every call succeeding, for every `start` and `end` and
every number of loop passes, the names `deletePVCs` passes to `Delete` are,
element by element and in the same order, the names of the claims
`createPVCs` passes to `Create`; and for `end < maxInt`, `createPVCs` followed
by `deletePVCs` returns and, in the store model where `Create` adds a name and
`Delete` removes it, a store that held none of the names of the range holds
the same set of claim names afterwards. -/
theorem delete_undoes_create (env : Env) (hok : ApiOk env) (start stop : Int)
    (hs : IsGoInt start) (he : IsGoInt stop) :
    (∀ (fuel : Nat) (w : World),
      deletedNames ((deletePVCs env fuel start stop w).1.calls.drop w.calls.length)
        = createdNames ((createPVCs env fuel start stop w).1.calls.drop w.calls.length)) ∧
    (stop < maxInt → ∀ (fuel : Nat), rangeLen start stop < fuel → ∀ (store : List String),
      (∀ name ∈ createdNames (createPVCs env fuel start stop World.init).1.calls,
        name ∉ store) →
      (andThen (createPVCs env fuel start stop World.init)
        (deletePVCs env fuel start stop)).2 = .returned ∧
      ∀ s, s ∈ storeAfter store (callsOf (andThen (createPVCs env fuel start stop World.init)
        (deletePVCs env fuel start stop)).1.calls) ↔ s ∈ store) := by
  have _ := he
  refine ⟨fun fuel w => deleted_names_eq_created_names env hok fuel start stop w, ?_⟩
  intro hlt fuel hf store hdisj
  apply create_then_delete_restores env hok start stop hs hlt fuel hf store
  intro j hj
  apply hdisj
  rw [createPVCs_ok env hok start stop hs.1 hlt fuel hf]
  simp only [World.init, List.nil_append, createdNames_okCalls]
  exact List.mem_map_of_mem _ hj

/-- Witness for C8, amended: the range `[0, 1]` and a store holding one other
claim. -/
theorem delete_undoes_create_witness :
    deletedNames (deletePVCs okEnv 3 0 1 World.init).1.calls
      = createdNames (createPVCs okEnv 3 0 1 World.init).1.calls ∧
    ∀ s, s ∈ storeAfter ["data"] (callsOf (andThen (createPVCs okEnv 3 0 1 World.init)
      (deletePVCs okEnv 3 0 1)).1.calls) ↔ s ∈ ["data"] :=
  ⟨(delete_undoes_create okEnv okEnv_apiOk 0 1 (by decide) (by decide)).1 3 World.init,
   ((delete_undoes_create okEnv okEnv_apiOk 0 1 (by decide) (by decide)).2 (by decide) 3
      (by decide) ["data"] (by decide)).2⟩

/-- C9 as stated fails at `start = end = maxInt`: the claim gives the pod one
volume, but the loop of `createPod` does not end however many passes it is
given, and the pod under construction has one more volume after each pass,
the second one for the wrapped counter `minInt`. -/
theorem createPod_maxInt_descriptor_grows :
    (∀ fuel : Nat,
      (createPodLoop maxInt fuel maxInt basePod World.init).2.2 = .outOfFuel ∧
      (createPodLoop maxInt fuel maxInt basePod World.init).1.Spec.Volumes.length = fuel) ∧
    (createPodLoop maxInt 2 maxInt basePod World.init).1.Spec.Volumes.map (·.Name)
      = ["pvc-9223372036854775807", "pvc--9223372036854775808"] ∧
    (((createPodLoop maxInt 2 maxInt basePod World.init).1.Spec.Volumes.length : Nat) : Int)
      ≠ maxInt - maxInt + 1 := by
  refine ⟨fun fuel => ?_, by decide, by decide⟩
  have h := createPodLoop_maxInt fuel maxInt basePod World.init (by decide) (by decide)
  refine ⟨h.1, ?_⟩
  rw [h.2]
  simp [basePod]

/-- C9, amended: for Go `int` values `start <= end` with `end < maxInt`, the
loop of `createPod` ends with a pod that has `end - start + 1` volumes and one
container with `end - start + 1` volume mounts; at every position `k` the
mount's `Name` equals the volume's `Name`, which equals that volume's
`ClaimName`, and the mount's `MountPath` is `/` followed by that name; the
volume names are pairwise distinct and so are the mount paths. -/
theorem pod_descriptor_consistent (start stop : Int) (hs : IsGoInt start) (he : IsGoInt stop)
    (hle : start ≤ stop) (hlt : stop < maxInt) (fuel : Nat) (hf : rangeLen start stop < fuel)
    (w : World) :
    (createPodLoop stop fuel start basePod w).2.2 = .returned ∧
    ∃ c, (createPodLoop stop fuel start basePod w).1.Spec.Containers = [c] ∧
      (((createPodLoop stop fuel start basePod w).1.Spec.Volumes.length : Nat) : Int)
        = stop - start + 1 ∧
      ((c.VolumeMounts.length : Nat) : Int) = stop - start + 1 ∧
      (∀ (k : Nat) (v : Volume) (m : VolumeMount),
        (createPodLoop stop fuel start basePod w).1.Spec.Volumes[k]? = some v →
        c.VolumeMounts[k]? = some m →
          m.Name = v.Name ∧ v.VolumeSource.PersistentVolumeClaim = some ⟨v.Name⟩ ∧
          m.MountPath = "/" ++ v.Name) ∧
      ((createPodLoop stop fuel start basePod w).1.Spec.Volumes.map (·.Name)).Nodup ∧
      (c.VolumeMounts.map (·.MountPath)).Nodup := by
  have _ := he
  rw [createPodLoop_ok_rangeLen start stop hs.1 hlt fuel hf w]
  obtain ⟨c, hc, hm⟩ := expectedPod_containers start (rangeLen start stop)
  refine ⟨rfl, c, hc, ?_, ?_, ?_, ?_, ?_⟩
  · simp only [expectedPod_volumes, List.length_map, indices_length]
    exact rangeLen_cast start stop hle
  · simp only [hm, List.length_map, indices_length]
    exact rangeLen_cast start stop hle
  · intro k v m hv hmk
    rw [expectedPod_volumes, List.getElem?_map] at hv
    rw [hm, List.getElem?_map] at hmk
    cases hi : (indices start (rangeLen start stop))[k]? with
    | none => rw [hi] at hv; cases hv
    | some i =>
      rw [hi] at hv hmk
      simp only [Option.map_some', Option.some.injEq] at hv hmk
      subst hv
      subst hmk
      refine ⟨rfl, rfl, ?_⟩
      simp only [newVolumeMount, newVolume, String.append_assoc]
  · simp only [expectedPod_volumes, List.map_map]
    exact List.Nodup.map pvcName_injective (indices_nodup _ _)
  · simp only [hm, List.map_map]
    apply List.Nodup.map _ (indices_nodup _ _)
    intro i j h
    simp only [Function.comp, newVolumeMount, String.append_assoc] at h
    exact pvcName_injective (append_left_cancel _ _ _ h)

/-- Witness for C9, amended: the range `[0, 1]`. -/
theorem pod_descriptor_consistent_witness :
    (createPodLoop 1 3 0 basePod World.init).2.2 = .returned ∧
    (createPodLoop 1 3 0 basePod World.init).1.Spec.Volumes.map (·.Name) = ["pvc-0", "pvc-1"] :=
  ⟨(pod_descriptor_consistent 0 1 (by decide) (by decide) (by decide) (by decide) 3 (by decide)
      World.init).1, by decide⟩

/-- C10: with a 64-bit `int`, every API call succeeding and `end < maxInt`,
the loops of `createPVCs`, `deletePVCs` and `createPod` end as soon as they
are given more passes than the range has indices, and the arguments they pass
to `strconv.Itoa` are, in order, the indices `start, start + 1, ...` of the
range (four times each in `createPod`), all of which lie in `[start, end]`:
the counter does not wrap. -/
theorem loops_terminate_without_wrap (env : Env) (hok : ApiOk env) (start stop : Int)
    (hs : IsGoInt start) (he : IsGoInt stop) (hlt : stop < maxInt) (fuel : Nat)
    (hf : rangeLen start stop < fuel) (w : World) :
    ((createPVCs env fuel start stop w).2 = .returned ∧
      (createPVCs env fuel start stop w).1.itoaArgs
        = w.itoaArgs ++ indices start (rangeLen start stop)) ∧
    ((deletePVCs env fuel start stop w).2 = .returned ∧
      (deletePVCs env fuel start stop w).1.itoaArgs
        = w.itoaArgs ++ indices start (rangeLen start stop)) ∧
    ((createPod env fuel start stop w).2 = .returned ∧
      (createPod env fuel start stop w).1.itoaArgs
        = w.itoaArgs ++ (indices start (rangeLen start stop)).flatMap (fun j => [j, j, j, j])) ∧
    (∀ j ∈ indices start (rangeLen start stop), start ≤ j ∧ j ≤ stop) := by
  have _ := he
  rw [createPVCs_ok env hok start stop hs.1 hlt fuel hf w,
    deletePVCs_ok env hok start stop hs.1 hlt fuel hf w,
    createPod_ok env hok start stop hs.1 hlt fuel hf w]
  refine ⟨⟨rfl, rfl⟩, ⟨rfl, rfl⟩, ⟨rfl, rfl⟩, ?_⟩
  intro j hj
  simp only [indices, List.mem_map, List.mem_range] at hj
  obtain ⟨k, hk, rfl⟩ := hj
  unfold rangeLen at hk
  omega

/-- Witness for C10: the range `[-1, 1]`. -/
theorem loops_terminate_without_wrap_witness :
    (createPVCs okEnv 4 (-1) 1 World.init).2 = .returned ∧
    (createPVCs okEnv 4 (-1) 1 World.init).1.itoaArgs = [-1, 0, 1] := by
  have h := (loops_terminate_without_wrap okEnv okEnv_apiOk (-1) 1 (by decide) (by decide)
    (by decide) 4 (by decide) World.init).1
  refine ⟨h.1, ?_⟩
  rw [h.2]
  decide

end MassivePvc
